import Mathlib

/-!
Verification of the pbtranscript naming/format utilities.

Shallow embedding of:
- `pbtranscript/io/common.py` (`parse_ds_filename`, `ClusterName`,
  `SampleIsoformName`),
- `pbtranscript/tasks/collapse_mapped_isoforms.py` (option defaults, the
  `--collapsed_isoforms` materialization step, the resolved-tool-contract
  runner),
- `pbtranscript/PBTranscriptRunner.py` (`PBTranscript.run`).

Python strings are modelled as `List Char`.  `str.split(sep)` for a
one-character separator, `sep.join`, `str.strip()`, `int(...)` and the
`posixpath` functions `dirname` / `basename` / `join` are modelled
faithfully below (restricted to ASCII whitespace and ASCII digits, the
only characters the embedded code paths manipulate).
-/

set_option autoImplicit false

namespace PbTranscript

/-! ## Definitions -/

/-- Python `s.split(sep)` for a single-character separator `sep`:
splits at every occurrence, keeping empty fields; `"".split(sep) = [""]`. -/
def pySplitChar (sep : Char) : List Char → List (List Char)
  | [] => [[]]
  | c :: cs =>
    let r := pySplitChar sep cs
    if c = sep then [] :: r else (c :: r.headI) :: r.tail

/-- Python `sep.join(parts)` for a single-character separator. -/
def pyJoinChar (sep : Char) : List (List Char) → List Char
  | [] => []
  | [x] => x
  | x :: y :: ys => x ++ sep :: pyJoinChar sep (y :: ys)

/-- ASCII whitespace stripped by Python `str.strip()` and tolerated by `int()`. -/
def isPySpace (c : Char) : Bool :=
  c = ' ' || c = '\t' || c = '\n' || c = '\x0d' || c = '\x0b' || c = '\x0c'

/-- Python `str.strip()` (ASCII whitespace). -/
def pyStrip (s : List Char) : List Char :=
  ((s.dropWhile isPySpace).reverse.dropWhile isPySpace).reverse

/-- Digit tail of a Python integer literal: digits with single underscores
allowed between digits, accumulating the value.  `afterUnd` records that the
previous character was an underscore (which must be followed by a digit). -/
def digitsU (acc : Nat) (afterUnd : Bool) : List Char → Option Nat
  | [] => if afterUnd then none else some acc
  | c :: cs =>
    if c.isDigit then digitsU (acc * 10 + (c.toNat - 48)) false cs
    else if c = '_' && !afterUnd then digitsU acc true cs
    else none

/-- Nonempty digit run (first character must be a digit, no leading underscore). -/
def pyDigits : List Char → Option Nat
  | [] => none
  | c :: cs => if c.isDigit then digitsU (c.toNat - 48) false cs else none

/-- Sign-and-digits part of Python `int(s)`, applied after stripping. -/
def pyIntStripped : List Char → Option Int
  | [] => none
  | c :: rest =>
    if c = '+' then (pyDigits rest).map (fun n : Nat => (n : Int))
    else if c = '-' then (pyDigits rest).map (fun n : Nat => -(n : Int))
    else (pyDigits (c :: rest)).map (fun n : Nat => (n : Int))

/-- Python `int(s)` on a string: strip ASCII whitespace, optional single sign,
then a nonempty digit run (underscores allowed between digits).
Returns `none` where Python raises `ValueError`. -/
def pyInt (s : List Char) : Option Int :=
  pyIntStripped (pyStrip s)

/-- The decimal digit character for `n < 10`. -/
def digitChar (n : Nat) : Char :=
  if n = 0 then '0' else if n = 1 then '1' else if n = 2 then '2'
  else if n = 3 then '3' else if n = 4 then '4' else if n = 5 then '5'
  else if n = 6 then '6' else if n = 7 then '7' else if n = 8 then '8' else '9'

/-- Decimal rendering with explicit fuel (structural recursion, so that the
kernel can evaluate it on concrete inputs). -/
def natReprAux : Nat → Nat → List Char
  | 0, _ => []
  | fuel + 1, n =>
    if n < 10 then [digitChar n]
    else natReprAux fuel (n / 10) ++ [digitChar (n % 10)]

/-- Python `str(n)` for a non-negative integer: decimal digits. -/
def natRepr (n : Nat) : List Char := natReprAux (n + 1) n

/-- Python `str(i)` for an integer: optional minus sign then decimal digits. -/
def intRepr (i : Int) : List Char :=
  if i < 0 then '-' :: natRepr i.natAbs else natRepr i.natAbs

/-- The decimal value of a pure-digit string, as computed by `pyDigits`. -/
def digitsVal (l : List Char) : Nat :=
  l.foldl (fun a c => a * 10 + (c.toNat - 48)) 0

/-! ### posixpath model (`os.path` on POSIX) -/

/-- Python `s.endswith(sfx)`. -/
def pyEndsWith (s sfx : List Char) : Bool := decide (sfx <:+ s)

/-- `posixpath.basename(p)`: the part after the last slash. -/
def pbasename (p : List Char) : List Char :=
  (p.reverse.takeWhile (fun c => c ≠ '/')).reverse

/-- Strip trailing slashes (`str.rstrip('/')`). -/
def rstripSlash (l : List Char) : List Char :=
  (l.reverse.dropWhile (fun c => c = '/')).reverse

/-- `posixpath.dirname(p)`: everything up to and including the last slash,
with trailing slashes stripped unless the result consists only of slashes. -/
def pdirname (p : List Char) : List Char :=
  let head := (p.reverse.dropWhile (fun c => c ≠ '/')).reverse
  if head.all (fun c => c = '/') then head else rstripSlash head

/-- `posixpath.join(a, b)` for a single extra component. -/
def pjoin (a b : List Char) : List Char :=
  if b.head? = some '/' then b
  else if a = [] ∨ a.getLast? = some '/' then a ++ b
  else a ++ '/' :: b

/-! ### Exceptions raised by the embedded code -/

/-- The Python exceptions the embedded code can raise. -/
inductive PyError
  | valueError (msg : List Char)
  | typeError
  | ioError (msg : List Char)
  | notImplementedError
  deriving DecidableEq

deriving instance DecidableEq for Except

/-! ### `pbtranscript/io/common.py` — `parse_ds_filename` -/

/-- `parse_ds_filename(fn)`: detect the file format from the filename suffix
and return `(file_prefix, file_suffix)`; raises `ValueError` for anything
that is not FASTA / FASTQ / ContigSet. -/
def parse_ds_filename (fn : List Char) : Except PyError (List Char × List Char) :=
  if pyEndsWith fn (".contigset.xml".data) then
    Except.ok
      (pjoin (pdirname fn)
        (pyJoinChar '.' ((pySplitChar '.' (pbasename fn)).dropLast.dropLast)),
       ("contigset.xml".data))
  else
    let pfx := pjoin (pdirname fn)
      (pyJoinChar '.' ((pySplitChar '.' (pbasename fn)).dropLast))
    if pyEndsWith fn (".fasta".data) || pyEndsWith fn (".fa".data) then
      Except.ok (pfx, ("fasta".data))
    else if pyEndsWith fn (".fastq".data) || pyEndsWith fn (".fq".data) then
      Except.ok (pfx, ("fastq".data))
    else
      Except.error (PyError.valueError
        (("Invalide FASTA/FASTQ/ContigSet file ".data) ++ fn))

/-- Joining the returned prefix, a dot, and the returned suffix — the
reconstruction whose relationship to the input filename is under study. -/
def reconstructName (fn : List Char) : Except PyError (List Char) :=
  Except.map (fun pr : List Char × List Char => pr.1 ++ '.' :: pr.2)
    (parse_ds_filename fn)

/-! ### `pbtranscript/io/common.py` — `ClusterName` and `SampleIsoformName` -/

/-- A Python argument value that may be an `int`, a `str`, or neither
(`other` stands for any value of a different runtime type). -/
inductive PyArg
  | int (n : Int)
  | str (s : List Char)
  | other
  deriving DecidableEq

/-- The fields of a constructed `ClusterName` object. -/
structure ClusterName where
  cluster_id_str : List Char
  num_fl : Int
  num_nfl : Int
  length : Int
  deriving DecidableEq

/-- Python `int(x)` applied to a constructor argument: identity on ints,
string parse on strings (`ValueError` on failure), `TypeError` otherwise. -/
def pyIntOf : PyArg → Except PyError Int
  | .int n => .ok n
  | .str s =>
    match pyInt s with
    | some n => .ok n
    | none => .error (.valueError (("invalid literal for int() with base 10".data)))
  | .other => .error .typeError

/-- `ClusterName.__init__`: `cluster_id` may be a string (kept as-is when it
starts with `'c'`, otherwise prefixed with `'c'`) or an int (rendered with a
`'c'` prefix); any other type raises `ValueError`.  The remaining arguments
pass through Python `int(...)`. -/
def ClusterName.init (cluster_id fl nfl len : PyArg) : Except PyError ClusterName :=
  match ((match cluster_id with
         | .str s => if s.head? = some 'c' then Except.ok s else Except.ok ('c' :: s)
         | .int n => Except.ok ('c' :: intRepr n)
         | .other => Except.error (.valueError (("Invalid cluster id".data)))) :
        Except PyError (List Char)) with
  | .error e => .error e
  | .ok cid =>
    match pyIntOf fl with
    | .error e => .error e
    | .ok a =>
      match pyIntOf nfl with
      | .error e => .error e
      | .ok b =>
        match pyIntOf len with
        | .error e => .error e
        | .ok c => .ok ⟨cid, a, b, c⟩

/-- `ClusterName.__str__`: `"{cid}/f{num_fl}p{num_nfl}/{length}"`. -/
def ClusterName.toStr (cn : ClusterName) : List Char :=
  cn.cluster_id_str ++ ('/' :: 'f' :: intRepr cn.num_fl) ++
    ('p' :: intRepr cn.num_nfl) ++ ('/' :: intRepr cn.length)

/-- The uniform `ValueError` raised by `ClusterName.fromString`; its message
names the offending line. -/
def ClusterName.fromStringErr (line : List Char) : PyError :=
  .valueError ((("Invalid ClusterName ".data)) ++ line ++
    ((", should be c<cluster_index>/f<num_fl>p<num_nfl>/<length>".data)))

/-- `ClusterName.fromString(line)`: split on `'/'` into exactly three fields,
split the middle field on `'p'` into exactly two, parse the numeric parts and
build a `ClusterName`; every `ValueError`/`IndexError` raised inside is
caught and re-raised as the uniform message naming the line. -/
def ClusterName.fromString (line : List Char) : Except PyError ClusterName :=
  match pySplitChar '/' line with
  | [cluster_id_str, f_p, len] =>
    match pySplitChar 'p' f_p with
    | [f, p] =>
      match pyInt (f.drop 1), pyInt p with
      | some num_fl, some num_nfl =>
        match ClusterName.init (.str cluster_id_str) (.int num_fl)
            (.int num_nfl) (.str len) with
        | .ok cn => .ok cn
        | .error _ => .error (ClusterName.fromStringErr line)
      | _, _ => .error (ClusterName.fromStringErr line)
    | _ => .error (ClusterName.fromStringErr line)
  | _ => .error (ClusterName.fromStringErr line)

/-- The fields of a constructed `SampleIsoformName` object; `sample_pfx`
models the `sample_prefix` attribute of the source class. -/
structure SampleIsoformName where
  sample_pfx : List Char
  cluster_id_str : List Char
  num_fl : Int
  num_nfl : Int
  length : Int
  deriving DecidableEq

/-- `SampleIsoformName.__init__`: store the sample prefix, then run the
inherited `ClusterName.__init__` on the remaining arguments. -/
def SampleIsoformName.init (sp : List Char) (cluster_id fl nfl len : PyArg) :
    Except PyError SampleIsoformName :=
  match ClusterName.init cluster_id fl nfl len with
  | .error e => .error e
  | .ok cn => .ok ⟨sp, cn.cluster_id_str, cn.num_fl, cn.num_nfl, cn.length⟩

/-- `str(x)` for a `SampleIsoformName`: the class does not override
`__str__`, so Python uses the inherited `ClusterName.__str__`, which renders
only the cluster part and omits the sample prefix. -/
def SampleIsoformName.toStr (x : SampleIsoformName) : List Char :=
  ClusterName.toStr ⟨x.cluster_id_str, x.num_fl, x.num_nfl, x.length⟩

/-- The uniform `ValueError` raised by `SampleIsoformName.fromString`. -/
def SampleIsoformName.fromStringErr (line : List Char) : PyError :=
  .valueError ((("Invalid SampleIsoformName ".data)) ++ line ++
    ((", should be <sample_prefix>|c<cluster_index>/f<num_fl>p<num_nfl>/<length>".data)))

/-- `SampleIsoformName.fromString(line)`: strip the line, split on `'|'`
into exactly two parts, parse the second with `ClusterName.fromString`, and
rebuild; every `ValueError`/`IndexError` raised inside is caught and
re-raised as the uniform message naming the line. -/
def SampleIsoformName.fromString (line : List Char) : Except PyError SampleIsoformName :=
  match pySplitChar '|' (pyStrip line) with
  | [sp, cname] =>
    match ClusterName.fromString cname with
    | .ok c =>
      match SampleIsoformName.init sp (.str c.cluster_id_str) (.int c.num_fl)
          (.int c.num_nfl) (.int c.length) with
      | .ok x => .ok x
      | .error _ => .error (SampleIsoformName.fromStringErr line)
    | .error _ => .error (SampleIsoformName.fromStringErr line)
  | _ => .error (SampleIsoformName.fromStringErr line)

/-! ### `pbtranscript/tasks/collapse_mapped_isoforms.py` -/

/-- `Constants.MIN_ALN_COVERAGE_DEFAULT = 0.99`.  Python float literals are
modelled by the rationals they denote. -/
def MIN_ALN_COVERAGE_DEFAULT : Rat := 0.99

/-- `Constants.MIN_ALN_IDENTITY_DEFAULT = 0.95`. -/
def MIN_ALN_IDENTITY_DEFAULT : Rat := 0.95

/-- `Constants.MAX_FUZZY_JUNCTION_DEFAULT = 5`. -/
def MAX_FUZZY_JUNCTION_DEFAULT : Int := 5

/-- `Constants.MIN_FLNC_COVERAGE_DEFAULT = 1`. -/
def MIN_FLNC_COVERAGE_DEFAULT : Int := 1

/-- `Constants.ALLOW_EXTRA_5EXON_DEFAULT = False`. -/
def ALLOW_EXTRA_5EXON_DEFAULT : Bool := false

/-- `Constants.SKIP_5_EXON_ALT_DEFAULT = False`. -/
def SKIP_5_EXON_ALT_DEFAULT : Bool := false

/-- The collapse-related option values carried on the parsed argparse
namespace. -/
structure CollapseArgs where
  min_aln_coverage : Rat
  min_aln_identity : Rat
  max_fuzzy_junction : Int
  min_flnc_coverage : Int
  allow_extra_5exon : Bool
  skip_5_exon_alt : Bool
  deriving DecidableEq

/-- The defaults installed by `add_collapse_mapped_isoforms_arguments`: a run
invoked with no option overrides parses to exactly these values. -/
def defaultCollapseArgs : CollapseArgs :=
  { min_aln_coverage := MIN_ALN_COVERAGE_DEFAULT
    min_aln_identity := MIN_ALN_IDENTITY_DEFAULT
    max_fuzzy_junction := MAX_FUZZY_JUNCTION_DEFAULT
    min_flnc_coverage := MIN_FLNC_COVERAGE_DEFAULT
    allow_extra_5exon := ALLOW_EXTRA_5EXON_DEFAULT
    skip_5_exon_alt := SKIP_5_EXON_ALT_DEFAULT }

/-- The possible effects of the `--collapsed_isoforms` materialization step
at the end of `args_runner` (after `CollapseIsoformsRunner.run`). -/
inductive CollapseOutAction
  | noTarget
  | link (sfx : List Char)
  | wrapContigset
  | raiseError (e : PyError)
  deriving DecidableEq

/-- The `--collapsed_isoforms` branch of `args_runner`: parse the target
filename; link the representative file of the detected suffix when it exists;
otherwise wrap a contig set when the suffix equals `".contigset.xml"` (with a
leading dot, exactly as the source comparison is written) and raise `IOError`
otherwise.  `repExists sfx` models `op.exists(c.rep_fn(sfx))`. -/
def collapsedIsoformsStep (target : Option (List Char))
    (repExists : List Char → Bool) : CollapseOutAction :=
  match target with
  | none => .noTarget
  | some t =>
    match parse_ds_filename t with
    | .error e => .raiseError e
    | .ok pr =>
      if repExists pr.2 then .link pr.2
      else if pr.2 = (".contigset.xml".data) then .wrapContigset
      else .raiseError (.ioError
        (("Could not make collapsed isoform file ".data) ++ t))

/-- `resolved_tool_contract_runner(rtc)`: unconditionally raises
`NotImplementedError` (the body was merged to `post_mapping_to_genome` and is
commented out in the source). -/
def resolved_tool_contract_runner {RTC : Type} (_rtc : RTC) : Except PyError Int :=
  Except.error PyError.notImplementedError

/-! ### `pbtranscript/PBTranscriptRunner.py` — `PBTranscript.run` -/

/-- Whether a dispatched subcommand body completes or raises an exception
(at the `Exception` level that `PBTranscript.run` catches). -/
inductive BodyOutcome
  | completed
  | raised
  deriving DecidableEq

/-- Modelled from the spec: the bodies of the `classify`, `cluster` and
`subset` subcommands (classes `Classifier`, `Cluster`,
`ReadsSubsetExtractor` from modules not present under the embedded sources)
are abstracted as outcomes — each either completes or raises an exception.
`PBTranscript.run` itself is embedded from the source: it dispatches on the
subcommand inside `try`, raises `PBTranscriptException` for an unknown
subcommand, catches every `Exception`, and returns 1 on a caught exception
and 0 otherwise. -/
def pbTranscriptRun (cmd : List Char)
    (classifyBody clusterBody subsetBody : BodyOutcome) : Int :=
  if cmd = ("classify".data) then
    match classifyBody with | .completed => 0 | .raised => 1
  else if cmd = ("cluster".data) then
    match clusterBody with | .completed => 0 | .raised => 1
  else if cmd = ("subset".data) then
    match subsetBody with | .completed => 0 | .raised => 1
  else 1

/-! ## Helper lemmas -/

theorem pySplitChar_nil (sep : Char) : pySplitChar sep [] = [[]] := rfl

theorem pySplitChar_cons_sep (sep : Char) (cs : List Char) :
    pySplitChar sep (sep :: cs) = [] :: pySplitChar sep cs := by
  simp [pySplitChar]

theorem pySplitChar_cons_ne (sep c : Char) (cs : List Char) (h : c ≠ sep) :
    pySplitChar sep (c :: cs) =
      (c :: (pySplitChar sep cs).headI) :: (pySplitChar sep cs).tail := by
  simp [pySplitChar, h]

theorem pySplitChar_ne_nil (sep : Char) (s : List Char) : pySplitChar sep s ≠ [] := by
  cases s with
  | nil => simp [pySplitChar]
  | cons c cs => by_cases h : c = sep <;> simp [pySplitChar, h]

theorem pySplitChar_exists_cons (sep : Char) (s : List Char) :
    ∃ g gs, pySplitChar sep s = g :: gs := by
  cases h : pySplitChar sep s with
  | nil => exact absurd h (pySplitChar_ne_nil sep s)
  | cons g gs => exact ⟨g, gs, rfl⟩

theorem pyJoinChar_cons_cons (sep : Char) (x y : List Char) (ys : List (List Char)) :
    pyJoinChar sep (x :: y :: ys) = x ++ sep :: pyJoinChar sep (y :: ys) := rfl

theorem pyJoin_pySplit (sep : Char) (s : List Char) :
    pyJoinChar sep (pySplitChar sep s) = s := by
  induction s with
  | nil => simp [pySplitChar, pyJoinChar]
  | cons c cs ih =>
    obtain ⟨g, gs, hr⟩ := pySplitChar_exists_cons sep cs
    by_cases hc : c = sep
    · subst hc
      rw [pySplitChar_cons_sep, hr, pyJoinChar_cons_cons, ← hr, ih]
      rfl
    · rw [pySplitChar_cons_ne sep c cs hc, hr]
      rw [hr] at ih
      cases gs with
      | nil => simpa [pyJoinChar] using congrArg (c :: ·) ih
      | cons g2 gs2 =>
        rw [pyJoinChar_cons_cons] at ih
        simp only [List.headI, List.tail]
        rw [pyJoinChar_cons_cons, List.cons_append, ih]

/-- Splitting a list that contains no separator yields the single field. -/
theorem pySplitChar_no_sep (sep : Char) (s : List Char) (h : sep ∉ s) :
    pySplitChar sep s = [s] := by
  induction s with
  | nil => simp [pySplitChar]
  | cons c cs ih =>
    simp only [List.mem_cons, not_or] at h
    rw [pySplitChar_cons_ne sep c cs (fun hc => h.1 hc.symm), ih h.2]
    rfl

/-- Splitting distributes over a separator occurrence. -/
theorem pySplitChar_append (sep : Char) (t u : List Char) :
    pySplitChar sep (t ++ sep :: u) = pySplitChar sep t ++ pySplitChar sep u := by
  induction t with
  | nil => simp [pySplitChar_cons_sep, pySplitChar_nil]
  | cons c cs ih =>
    obtain ⟨g, gs, hr⟩ := pySplitChar_exists_cons sep cs
    by_cases hc : c = sep
    · subst hc
      rw [List.cons_append, pySplitChar_cons_sep, pySplitChar_cons_sep, ih,
        List.cons_append]
    · rw [List.cons_append, pySplitChar_cons_ne sep c _ hc,
        pySplitChar_cons_ne sep c cs hc, ih, hr, List.cons_append]
      obtain ⟨h2, hs2, hu⟩ := pySplitChar_exists_cons sep u
      simp [hu]

theorem digitChar_isDigit (n : Nat) (h : n < 10) : (digitChar n).isDigit = true := by
  interval_cases n <;> decide

theorem digitChar_toNat (n : Nat) (h : n < 10) : (digitChar n).toNat - 48 = n := by
  interval_cases n <;> decide

theorem natReprAux_fuel (n : Nat) : ∀ fuel1 fuel2, n < fuel1 → n < fuel2 →
    natReprAux fuel1 n = natReprAux fuel2 n := by
  induction n using Nat.strong_induction_on with
  | _ n ih =>
    intro fuel1 fuel2 h1 h2
    match fuel1, fuel2 with
    | f1 + 1, f2 + 1 =>
      by_cases hn : n < 10
      · simp [natReprAux, hn]
      · have hdiv : n / 10 < n := Nat.div_lt_self (by omega) (by omega)
        simp only [natReprAux, if_neg hn]
        rw [ih (n / 10) hdiv f1 f2 (by omega) (by omega)]

/-- The recursive unfolding of `natRepr`. -/
theorem natRepr_eq (n : Nat) :
    natRepr n = if n < 10 then [digitChar n]
      else natRepr (n / 10) ++ [digitChar (n % 10)] := by
  by_cases hn : n < 10
  · simp [natRepr, natReprAux, hn]
  · have hdiv : n / 10 < n := Nat.div_lt_self (by omega) (by omega)
    have h1 : natRepr n = natReprAux (n + 1) n := rfl
    rw [h1, natReprAux, if_neg hn, if_neg hn, natRepr,
      natReprAux_fuel (n / 10) n (n / 10 + 1) hdiv (by omega)]

theorem natRepr_ne_nil (n : Nat) : natRepr n ≠ [] := by
  rw [natRepr_eq]
  split <;> simp

theorem natRepr_all_digit (n : Nat) : ∀ c ∈ natRepr n, c.isDigit = true := by
  induction n using Nat.strong_induction_on with
  | _ n ih =>
    rw [natRepr_eq]
    split
    · next h => simpa using digitChar_isDigit n h
    · next h =>
      intro c hc
      rcases List.mem_append.mp hc with h1 | h1
      · exact ih (n / 10) (Nat.div_lt_self (by omega) (by omega)) c h1
      · simp only [List.mem_singleton] at h1
        subst h1
        exact digitChar_isDigit _ (Nat.mod_lt _ (by omega))

/-- Pure-digit strings evaluate through `digitsU` as a base-10 fold. -/
theorem digitsU_all_digit (l : List Char) :
    (∀ c ∈ l, c.isDigit = true) → ∀ acc,
      digitsU acc false l = some (l.foldl (fun a c => a * 10 + (c.toNat - 48)) acc) := by
  induction l with
  | nil => intro _ acc; simp [digitsU]
  | cons c cs ih =>
    intro h acc
    have hc : c.isDigit = true := h c (List.mem_cons_self c cs)
    rw [digitsU, if_pos hc, List.foldl_cons]
    exact ih (fun d hd => h d (List.mem_cons_of_mem c hd)) _

theorem pyDigits_all_digit (l : List Char) (hne : l ≠ [])
    (h : ∀ c ∈ l, c.isDigit = true) : pyDigits l = some (digitsVal l) := by
  cases l with
  | nil => exact absurd rfl hne
  | cons c cs =>
    have hc : c.isDigit = true := h c (List.mem_cons_self c cs)
    rw [pyDigits, if_pos hc, digitsVal, List.foldl_cons]
    have h0 : (0 : Nat) * 10 + (c.toNat - 48) = c.toNat - 48 := by omega
    rw [h0]
    exact digitsU_all_digit cs (fun d hd => h d (List.mem_cons_of_mem c hd)) _

theorem digitsVal_append_digit (l : List Char) (c : Char) :
    digitsVal (l ++ [c]) = digitsVal l * 10 + (c.toNat - 48) := by
  simp [digitsVal, List.foldl_append]

theorem digitsVal_natRepr (n : Nat) : digitsVal (natRepr n) = n := by
  induction n using Nat.strong_induction_on with
  | _ n ih =>
    rw [natRepr_eq]
    split
    · next h =>
      simp only [digitsVal, List.foldl_cons, List.foldl_nil]
      have := digitChar_toNat n h
      omega
    · next h =>
      rw [digitsVal_append_digit, ih (n / 10) (Nat.div_lt_self (by omega) (by omega)),
        digitChar_toNat _ (Nat.mod_lt _ (by omega))]
      omega

theorem pySpace_not_digit (c : Char) (h : isPySpace c = true) : c.isDigit = false := by
  simp only [isPySpace, Bool.or_eq_true, decide_eq_true_eq] at h
  rcases h with ((((h | h) | h) | h) | h) | h <;> subst h <;> decide

theorem isDigit_not_pySpace (c : Char) (h : c.isDigit = true) : isPySpace c = false := by
  cases hsp : isPySpace c with
  | false => rfl
  | true => rw [pySpace_not_digit c hsp] at h; cases h

theorem dropWhile_no_space (l : List Char) (h : ∀ c ∈ l, isPySpace c = false) :
    l.dropWhile isPySpace = l := by
  cases l with
  | nil => rfl
  | cons c cs => simp [List.dropWhile_cons, h c (List.mem_cons_self c cs)]

/-- A string with no whitespace characters strips to itself. -/
theorem pyStrip_no_space (l : List Char) (h : ∀ c ∈ l, isPySpace c = false) :
    pyStrip l = l := by
  unfold pyStrip
  rw [dropWhile_no_space l h,
    dropWhile_no_space l.reverse (fun c hc => h c (List.mem_reverse.mp hc)),
    List.reverse_reverse]

theorem pyDigits_natRepr (n : Nat) : pyDigits (natRepr n) = some n := by
  rw [pyDigits_all_digit (natRepr n) (natRepr_ne_nil n) (natRepr_all_digit n),
    digitsVal_natRepr]

/-- `int(str(i)) = i`: parsing the decimal rendering recovers the integer. -/
theorem pyInt_intRepr (i : Int) : pyInt (intRepr i) = some i := by
  by_cases hi : i < 0
  · have hstrip : pyStrip ('-' :: natRepr i.natAbs) = '-' :: natRepr i.natAbs := by
      apply pyStrip_no_space
      intro c hc
      rcases List.mem_cons.mp hc with h1 | h1
      · subst h1; decide
      · exact isDigit_not_pySpace c (natRepr_all_digit _ c h1)
    rw [intRepr, if_pos hi, pyInt, hstrip, pyIntStripped,
      if_neg (by decide : ¬('-' : Char) = '+'), if_pos rfl, pyDigits_natRepr]
    have hmap : Option.map (fun n : Nat => -(n : Int)) (some i.natAbs) =
        some (-(i.natAbs : Int)) := rfl
    rw [hmap]
    congr 1
    omega
  · have hstrip : pyStrip (natRepr i.natAbs) = natRepr i.natAbs :=
      pyStrip_no_space _ (fun c hc => isDigit_not_pySpace c (natRepr_all_digit _ c hc))
    rw [intRepr, if_neg hi, pyInt, hstrip]
    obtain ⟨c, cs, hcs⟩ : ∃ c cs, natRepr i.natAbs = c :: cs := by
      cases h : natRepr i.natAbs with
      | nil => exact absurd h (natRepr_ne_nil _)
      | cons c cs => exact ⟨c, cs, rfl⟩
    have hcd : c.isDigit = true := natRepr_all_digit _ c (hcs ▸ List.mem_cons_self c cs)
    have hplus : c ≠ '+' := by intro he; subst he; simp at hcd
    have hminus : c ≠ '-' := by intro he; subst he; simp at hcd
    rw [hcs, pyIntStripped, if_neg hplus, if_neg hminus, ← hcs, pyDigits_natRepr]
    have hmap : Option.map (fun n : Nat => (n : Int)) (some i.natAbs) =
        some ((i.natAbs : Int)) := rfl
    rw [hmap]
    congr 1
    omega

/-- Every character of `intRepr i` is a digit or the minus sign. -/
theorem intRepr_chars (i : Int) : ∀ c ∈ intRepr i, c.isDigit = true ∨ c = '-' := by
  unfold intRepr
  split
  · intro c hc
    rcases List.mem_cons.mp hc with h1 | h1
    · exact Or.inr h1
    · exact Or.inl (natRepr_all_digit _ c h1)
  · intro c hc
    exact Or.inl (natRepr_all_digit _ c hc)

theorem slash_not_mem_intRepr (i : Int) : '/' ∉ intRepr i := by
  intro h
  rcases intRepr_chars i '/' h with h1 | h1 <;> simp at h1

theorem p_not_mem_intRepr (i : Int) : 'p' ∉ intRepr i := by
  intro h
  rcases intRepr_chars i 'p' h with h1 | h1 <;> simp at h1

/-- Round-trip core: a `ClusterName` whose id starts with `'c'` and contains
no slash is recovered exactly by `fromString ∘ __str__`. -/
theorem ClusterName.fromString_toStr (cid : List Char) (fl nfl len : Int)
    (hc : cid.head? = some 'c') (hs : '/' ∉ cid) :
    ClusterName.fromString (ClusterName.toStr ⟨cid, fl, nfl, len⟩) =
      Except.ok ⟨cid, fl, nfl, len⟩ := by
  have hshape : ClusterName.toStr ⟨cid, fl, nfl, len⟩ =
      cid ++ '/' :: ((('f' :: intRepr fl) ++ 'p' :: intRepr nfl) ++ '/' :: intRepr len) := by
    simp [ClusterName.toStr]
  have hmidns : '/' ∉ ('f' :: intRepr fl) ++ 'p' :: intRepr nfl := by
    intro hmem
    rcases List.mem_append.mp hmem with hm | hm
    · rcases List.mem_cons.mp hm with hm2 | hm2
      · exact absurd hm2 (by decide)
      · exact slash_not_mem_intRepr fl hm2
    · rcases List.mem_cons.mp hm with hm2 | hm2
      · exact absurd hm2 (by decide)
      · exact slash_not_mem_intRepr nfl hm2
  have hsplit : pySplitChar '/' (ClusterName.toStr ⟨cid, fl, nfl, len⟩) =
      [cid, ('f' :: intRepr fl) ++ 'p' :: intRepr nfl, intRepr len] := by
    rw [hshape, pySplitChar_append, pySplitChar_no_sep '/' cid hs, pySplitChar_append,
      pySplitChar_no_sep '/' _ hmidns, pySplitChar_no_sep '/' _ (slash_not_mem_intRepr len)]
    rfl
  have hmidsplit : pySplitChar 'p' (('f' :: intRepr fl) ++ 'p' :: intRepr nfl) =
      ['f' :: intRepr fl, intRepr nfl] := by
    have hfl : 'p' ∉ 'f' :: intRepr fl := by
      intro hm
      rcases List.mem_cons.mp hm with hm2 | hm2
      · exact absurd hm2 (by decide)
      · exact p_not_mem_intRepr fl hm2
    rw [pySplitChar_append, pySplitChar_no_sep 'p' _ hfl,
      pySplitChar_no_sep 'p' _ (p_not_mem_intRepr nfl)]
    rfl
  simp only [ClusterName.fromString, hsplit, hmidsplit, List.drop_succ_cons,
    List.drop_zero, pyInt_intRepr, ClusterName.init, pyIntOf, hc, if_pos]

theorem pyEndsWith_iff (s sfx : List Char) : pyEndsWith s sfx = true ↔ sfx <:+ s := by
  simp [pyEndsWith]

theorem pyEndsWith_getLast (s sfx : List Char) (h : pyEndsWith s sfx = true)
    (hne : sfx ≠ []) : s.getLast? = sfx.getLast? := by
  rw [pyEndsWith_iff] at h
  obtain ⟨t, rfl⟩ := h
  exact List.getLast?_append_of_ne_nil t hne

/-- Suffix checks with different final characters are mutually exclusive. -/
theorem pyEndsWith_false_of_getLast (s sfx1 sfx2 : List Char)
    (h : pyEndsWith s sfx1 = true) (h1 : sfx1 ≠ []) (h2 : sfx2 ≠ [])
    (hne : sfx1.getLast? ≠ sfx2.getLast?) : pyEndsWith s sfx2 = false := by
  cases hc : pyEndsWith s sfx2 with
  | false => rfl
  | true =>
    rw [← pyEndsWith_getLast s sfx1 h h1, pyEndsWith_getLast s sfx2 hc h2] at hne
    exact absurd rfl hne

theorem takeWhile_append_all (p : Char → Bool) (a b : List Char)
    (h : ∀ c ∈ a, p c = true) :
    (a ++ b).takeWhile p = a ++ b.takeWhile p := by
  induction a with
  | nil => rfl
  | cons c cs ih =>
    rw [List.cons_append, List.takeWhile_cons, if_pos (h c (List.mem_cons_self c cs)),
      ih (fun d hd => h d (List.mem_cons_of_mem c hd)), List.cons_append]

/-- `pbasename` contains no slash. -/
theorem slash_not_mem_pbasename (p : List Char) : '/' ∉ pbasename p := by
  intro h
  rw [pbasename, List.mem_reverse] at h
  have := List.mem_takeWhile_imp h
  simp at this

/-- If `fn` ends in a slash-free suffix, its basename ends in that suffix,
with an explicitly described slash-free stem in front of it. -/
theorem pbasename_of_suffix (t sfx : List Char) (hsl : '/' ∉ sfx) :
    pbasename (t ++ sfx) =
      (t.reverse.takeWhile (fun c => c ≠ '/')).reverse ++ sfx := by
  rw [pbasename, List.reverse_append,
    takeWhile_append_all _ sfx.reverse t.reverse
      (by
        intro c hc
        rw [List.mem_reverse] at hc
        simp only [ne_eq, decide_eq_true_eq]
        intro he
        exact hsl (he ▸ hc)),
    List.reverse_append, List.reverse_reverse]

/-- Gluing a slash-free continuation through `posixpath.join`. -/
theorem pjoin_append_right (dn w u : List Char) (hw : w.head? ≠ some '/')
    (hwu : (w ++ u).head? ≠ some '/') :
    pjoin dn w ++ u = pjoin dn (w ++ u) := by
  unfold pjoin
  rw [if_neg hwu, if_neg hw]
  by_cases hd : dn = [] ∨ dn.getLast? = some '/'
  · rw [if_pos hd, if_pos hd, List.append_assoc]
  · rw [if_neg hd, if_neg hd, List.append_assoc]
    rfl

/-- `parse_ds_filename` on a name ending `.contigset.xml`. -/
theorem parse_ds_contigset (fn : List Char)
    (h : pyEndsWith fn (".contigset.xml".data) = true) :
    parse_ds_filename fn = Except.ok
      (pjoin (pdirname fn)
        (pyJoinChar '.' ((pySplitChar '.' (pbasename fn)).dropLast.dropLast)),
       ("contigset.xml".data)) := by
  rw [parse_ds_filename, if_pos h]

/-- `parse_ds_filename` on a name ending `.fasta` / `.fa`. -/
theorem parse_ds_fasta (fn : List Char)
    (h : pyEndsWith fn (".fasta".data) = true ∨ pyEndsWith fn (".fa".data) = true) :
    parse_ds_filename fn = Except.ok
      (pjoin (pdirname fn)
        (pyJoinChar '.' ((pySplitChar '.' (pbasename fn)).dropLast)),
       ("fasta".data)) := by
  have hcs : pyEndsWith fn (".contigset.xml".data) = false := by
    rcases h with h | h <;>
      exact pyEndsWith_false_of_getLast fn _ _ h (by decide) (by decide) (by decide)
  have hor : (pyEndsWith fn (".fasta".data) || pyEndsWith fn (".fa".data)) = true := by
    rcases h with h | h <;> simp [h]
  rw [parse_ds_filename, if_neg (by simp [hcs])]
  simp only [hor, if_pos]

/-- `parse_ds_filename` on a name ending `.fastq` / `.fq`. -/
theorem parse_ds_fastq (fn : List Char)
    (h : pyEndsWith fn (".fastq".data) = true ∨ pyEndsWith fn (".fq".data) = true) :
    parse_ds_filename fn = Except.ok
      (pjoin (pdirname fn)
        (pyJoinChar '.' ((pySplitChar '.' (pbasename fn)).dropLast)),
       ("fastq".data)) := by
  have hcs : pyEndsWith fn (".contigset.xml".data) = false := by
    rcases h with h | h <;>
      exact pyEndsWith_false_of_getLast fn _ _ h (by decide) (by decide) (by decide)
  have hfa : pyEndsWith fn (".fasta".data) = false := by
    rcases h with h | h <;>
      exact pyEndsWith_false_of_getLast fn _ _ h (by decide) (by decide) (by decide)
  have hfa2 : pyEndsWith fn (".fa".data) = false := by
    rcases h with h | h <;>
      exact pyEndsWith_false_of_getLast fn _ _ h (by decide) (by decide) (by decide)
  have hor : (pyEndsWith fn (".fastq".data) || pyEndsWith fn (".fq".data)) = true := by
    rcases h with h | h <;> simp [h]
  rw [parse_ds_filename, if_neg (by simp [hcs])]
  simp only [hfa, hfa2, Bool.or_self, Bool.false_eq_true, if_false, hor, if_pos]

/-- `parse_ds_filename` on an unrecognized name. -/
theorem parse_ds_error (fn : List Char)
    (hcs : pyEndsWith fn (".contigset.xml".data) = false)
    (hfa : pyEndsWith fn (".fasta".data) = false)
    (hfa2 : pyEndsWith fn (".fa".data) = false)
    (hfq : pyEndsWith fn (".fastq".data) = false)
    (hfq2 : pyEndsWith fn (".fq".data) = false) :
    parse_ds_filename fn = Except.error (PyError.valueError
      (("Invalide FASTA/FASTQ/ContigSet file ".data) ++ fn)) := by
  rw [parse_ds_filename, if_neg (by simp [hcs])]
  simp only [hfa, hfa2, hfq, hfq2, Bool.or_self, Bool.false_eq_true, if_false]

/-- Every successful `parse_ds_filename` yields one of the three suffixes. -/
theorem parse_ds_suffix_cases (fn pfx sfx : List Char)
    (h : parse_ds_filename fn = Except.ok (pfx, sfx)) :
    sfx = ("contigset.xml".data) ∨ sfx = ("fasta".data) ∨ sfx = ("fastq".data) := by
  rw [parse_ds_filename] at h
  split at h
  · exact Or.inl (congrArg Prod.snd (Except.ok.inj h)).symm
  · split at h
    · exact Or.inr (Or.inl (congrArg Prod.snd (Except.ok.inj h)).symm)
    · split at h
      · exact Or.inr (Or.inr (congrArg Prod.snd (Except.ok.inj h)).symm)
      · exact absurd h (by simp)

theorem head?_ne_slash_of_not_mem (w : List Char) (h : '/' ∉ w) :
    w.head? ≠ some '/' := by
  cases w with
  | nil => simp
  | cons c cs =>
    intro he
    have hc : c = '/' := by
      have hh : (c :: cs).head? = some c := rfl
      rw [hh] at he
      exact Option.some.inj he
    subst hc
    exact h (List.mem_cons_self _ _)

/-- Stripping one extension from the basename and re-attaching it rebuilds
the path, provided joining dirname and basename rebuilds the input. -/
theorem reconstruct_single_ext (fn t sfx : List Char)
    (hfn : fn = t ++ '.' :: sfx) (hdot : '.' ∉ sfx) (hsl : '/' ∉ sfx)
    (hj : pjoin (pdirname fn) (pbasename fn) = fn) :
    pjoin (pdirname fn)
      (pyJoinChar '.' ((pySplitChar '.' (pbasename fn)).dropLast)) ++ '.' :: sfx = fn := by
  have hsl2 : '/' ∉ ('.' :: sfx) := by
    intro hm
    rcases List.mem_cons.mp hm with h | h
    · exact absurd h (by decide)
    · exact hsl h
  have hbn : pbasename fn =
      (t.reverse.takeWhile (fun c => c ≠ '/')).reverse ++ '.' :: sfx := by
    rw [hfn]
    exact pbasename_of_suffix t ('.' :: sfx) hsl2
  set w := (t.reverse.takeWhile (fun c => c ≠ '/')).reverse with hw
  have hwns : '/' ∉ w := by
    intro hm
    rw [hw, List.mem_reverse] at hm
    have := List.mem_takeWhile_imp hm
    simp at this
  have hwuns : '/' ∉ w ++ '.' :: sfx := by
    intro hm
    rcases List.mem_append.mp hm with h | h
    · exact hwns h
    · exact hsl2 h
  have hsplit : pySplitChar '.' (pbasename fn) = pySplitChar '.' w ++ [sfx] := by
    rw [hbn, pySplitChar_append, pySplitChar_no_sep '.' sfx hdot]
  have hstrip : pyJoinChar '.' ((pySplitChar '.' (pbasename fn)).dropLast) = w := by
    rw [hsplit, List.dropLast_concat, pyJoin_pySplit]
  rw [hstrip,
    pjoin_append_right (pdirname fn) w ('.' :: sfx)
      (head?_ne_slash_of_not_mem w hwns)
      (head?_ne_slash_of_not_mem _ hwuns),
    ← hbn, hj]

/-- Two-extension variant for `.contigset.xml`. -/
theorem reconstruct_double_ext (fn t : List Char)
    (hfn : fn = t ++ '.' :: (("contigset".data) ++ '.' :: ("xml".data)))
    (hj : pjoin (pdirname fn) (pbasename fn) = fn) :
    pjoin (pdirname fn)
      (pyJoinChar '.' ((pySplitChar '.' (pbasename fn)).dropLast.dropLast)) ++
      '.' :: ("contigset.xml".data) = fn := by
  have hcx : ('.' :: (("contigset".data) ++ '.' :: ("xml".data))) =
      '.' :: ("contigset.xml".data) := rfl
  have hsl2 : '/' ∉ ('.' :: (("contigset".data) ++ '.' :: ("xml".data))) := by decide
  have hbn : pbasename fn =
      (t.reverse.takeWhile (fun c => c ≠ '/')).reverse ++
        '.' :: (("contigset".data) ++ '.' :: ("xml".data)) := by
    rw [hfn]
    exact pbasename_of_suffix t _ hsl2
  set w := (t.reverse.takeWhile (fun c => c ≠ '/')).reverse with hw
  have hwns : '/' ∉ w := by
    intro hm
    rw [hw, List.mem_reverse] at hm
    have := List.mem_takeWhile_imp hm
    simp at this
  have hwuns : '/' ∉ w ++ '.' :: (("contigset".data) ++ '.' :: ("xml".data)) := by
    intro hm
    rcases List.mem_append.mp hm with h | h
    · exact hwns h
    · exact hsl2 h
  have hsplit : pySplitChar '.' (pbasename fn) =
      pySplitChar '.' w ++ [("contigset".data), ("xml".data)] := by
    rw [hbn, pySplitChar_append, pySplitChar_append,
      pySplitChar_no_sep '.' ("contigset".data) (by decide),
      pySplitChar_no_sep '.' ("xml".data) (by decide)]
    rfl
  have hstrip : pyJoinChar '.' ((pySplitChar '.' (pbasename fn)).dropLast.dropLast) = w := by
    have h2 : pySplitChar '.' w ++ [("contigset".data), ("xml".data)] =
        (pySplitChar '.' w ++ [("contigset".data)]) ++ [("xml".data)] := by
      simp
    rw [hsplit, h2, List.dropLast_concat, List.dropLast_concat, pyJoin_pySplit]
  rw [hstrip, ← hcx,
    pjoin_append_right (pdirname fn) w _
      (head?_ne_slash_of_not_mem w hwns)
      (head?_ne_slash_of_not_mem _ hwuns),
    ← hbn, hj]

/-- A name obtained by appending `".fasta"` never coincides with a name
ending in `".fa"` whose stem differs accordingly (second character from the
end differs). -/
theorem fasta_fa_ne (P t : List Char) :
    P ++ ('.' :: ("fasta".data)) ≠ t ++ (".fa".data) := by
  intro hEq
  have hrev := congrArg List.reverse hEq
  rw [List.reverse_append, List.reverse_append] at hrev
  have h2 : ('.' :: ("fasta".data)).reverse = ['a', 't', 's', 'a', 'f', '.'] := rfl
  have h3 : (".fa".data).reverse = ['a', 'f', '.'] := rfl
  rw [h2, h3] at hrev
  have h4 := congrArg (fun l => l.tail.head?) hrev
  simp only [List.cons_append, List.tail_cons, List.head?_cons, Option.some.injEq] at h4
  exact absurd h4 (by decide)

/-- `.fastq` / `.fq` analogue of `fasta_fa_ne`. -/
theorem fastq_fq_ne (P t : List Char) :
    P ++ ('.' :: ("fastq".data)) ≠ t ++ (".fq".data) := by
  intro hEq
  have hrev := congrArg List.reverse hEq
  rw [List.reverse_append, List.reverse_append] at hrev
  have h2 : ('.' :: ("fastq".data)).reverse = ['q', 't', 's', 'a', 'f', '.'] := rfl
  have h3 : (".fq".data).reverse = ['q', 'f', '.'] := rfl
  rw [h2, h3] at hrev
  have h4 := congrArg (fun l => l.tail.head?) hrev
  simp only [List.cons_append, List.tail_cons, List.head?_cons, Option.some.injEq] at h4
  exact absurd h4 (by decide)

/-! ## Claims -/

/-- C3: `parse_ds_filename` detects the format purely from the filename
suffix — `.contigset.xml` yields the contig-set suffix, `.fasta`/`.fa` the
FASTA suffix, `.fastq`/`.fq` the FASTQ suffix, and any other name raises the
`ValueError` the source spells `UnrecognizedFileFormatError`; no other
outcome is possible. -/
theorem claim_C3 (fn : List Char) :
    (pyEndsWith fn (".contigset.xml".data) = true →
      Except.map Prod.snd (parse_ds_filename fn) = Except.ok ("contigset.xml".data)) ∧
    ((pyEndsWith fn (".fasta".data) = true ∨ pyEndsWith fn (".fa".data) = true) →
      Except.map Prod.snd (parse_ds_filename fn) = Except.ok ("fasta".data)) ∧
    ((pyEndsWith fn (".fastq".data) = true ∨ pyEndsWith fn (".fq".data) = true) →
      Except.map Prod.snd (parse_ds_filename fn) = Except.ok ("fastq".data)) ∧
    (pyEndsWith fn (".contigset.xml".data) = false →
      pyEndsWith fn (".fasta".data) = false → pyEndsWith fn (".fa".data) = false →
      pyEndsWith fn (".fastq".data) = false → pyEndsWith fn (".fq".data) = false →
      parse_ds_filename fn = Except.error (PyError.valueError
        (("Invalide FASTA/FASTQ/ContigSet file ".data) ++ fn))) := by
  refine ⟨fun h => ?_, fun h => ?_, fun h => ?_, fun h1 h2 h3 h4 h5 => ?_⟩
  · rw [parse_ds_contigset fn h]; rfl
  · rw [parse_ds_fasta fn h]; rfl
  · rw [parse_ds_fastq fn h]; rfl
  · exact parse_ds_error fn h1 h2 h3 h4 h5

/-- C3 witness: the four branches at concrete filenames. -/
theorem claim_C3_witness :
    Except.map Prod.snd (parse_ds_filename ("in.contigset.xml".data)) =
      Except.ok ("contigset.xml".data) ∧
    Except.map Prod.snd (parse_ds_filename ("reads.fa".data)) =
      Except.ok ("fasta".data) ∧
    Except.map Prod.snd (parse_ds_filename ("reads.fq".data)) =
      Except.ok ("fastq".data) ∧
    parse_ds_filename ("reads.txt".data) = Except.error (PyError.valueError
      (("Invalide FASTA/FASTQ/ContigSet file ".data) ++ ("reads.txt".data))) :=
  ⟨(claim_C3 (("in.contigset.xml".data))).1 (by decide),
   (claim_C3 (("reads.fa".data))).2.1 (Or.inr (by decide)),
   (claim_C3 (("reads.fq".data))).2.2.1 (Or.inr (by decide)),
   (claim_C3 (("reads.txt".data))).2.2.2 (by decide) (by decide) (by decide)
     (by decide) (by decide)⟩

/-- C9 counterexample: the claim asserts reconstruction for every filename
ending `.fasta`, but `"a//b.fasta"` (doubled slash before the basename)
parses to prefix `"a/b"`, so prefix-dot-suffix rebuilds `"a/b.fasta"`, not
the input. -/
theorem claim_C9_counterexample :
    pyEndsWith ("a//b.fasta".data) (".fasta".data) = true ∧
    parse_ds_filename ("a//b.fasta".data) =
      Except.ok (("a/b".data), ("fasta".data)) ∧
    reconstructName ("a//b.fasta".data) ≠ Except.ok ("a//b.fasta".data) := by
  decide

/-- C9 (amended): `parse_ds_filename` normalizes `.fa` to suffix `fasta` and
`.fq` to `fastq`; joining prefix, dot and suffix rebuilds the input for
names ending `.fasta`, `.fastq` or `.contigset.xml` — provided
`posixpath.join(dirname, basename)` rebuilds the input (true except for
redundant slashes just before the basename) — and never rebuilds the input
for names ending `.fa` or `.fq`. -/
theorem claim_C9_amended (fn : List Char)
    (hj : pjoin (pdirname fn) (pbasename fn) = fn) :
    (pyEndsWith fn (".fa".data) = true →
      Except.map Prod.snd (parse_ds_filename fn) = Except.ok ("fasta".data)) ∧
    (pyEndsWith fn (".fq".data) = true →
      Except.map Prod.snd (parse_ds_filename fn) = Except.ok ("fastq".data)) ∧
    ((pyEndsWith fn (".fasta".data) = true ∨ pyEndsWith fn (".fastq".data) = true ∨
        pyEndsWith fn (".contigset.xml".data) = true) →
      reconstructName fn = Except.ok fn) ∧
    (pyEndsWith fn (".fa".data) = true → reconstructName fn ≠ Except.ok fn) ∧
    (pyEndsWith fn (".fq".data) = true → reconstructName fn ≠ Except.ok fn) := by
  refine ⟨fun h => ?_, fun h => ?_, fun h => ?_, fun h heq => ?_, fun h heq => ?_⟩
  · rw [parse_ds_fasta fn (Or.inr h)]; rfl
  · rw [parse_ds_fastq fn (Or.inr h)]; rfl
  · rcases h with h | h | h
    · obtain ⟨t, ht⟩ := (pyEndsWith_iff fn _).mp h
      rw [reconstructName, parse_ds_fasta fn (Or.inl h)]
      simp only [Except.map]
      have hfn : fn = t ++ '.' :: ("fasta".data) := by rw [← ht]
      exact congrArg Except.ok
        (reconstruct_single_ext fn t _ hfn (by decide) (by decide) hj)
    · obtain ⟨t, ht⟩ := (pyEndsWith_iff fn _).mp h
      rw [reconstructName, parse_ds_fastq fn (Or.inl h)]
      simp only [Except.map]
      have hfn : fn = t ++ '.' :: ("fastq".data) := by rw [← ht]
      exact congrArg Except.ok
        (reconstruct_single_ext fn t _ hfn (by decide) (by decide) hj)
    · obtain ⟨t, ht⟩ := (pyEndsWith_iff fn _).mp h
      rw [reconstructName, parse_ds_contigset fn h]
      simp only [Except.map]
      have hfn : fn = t ++ '.' :: (("contigset".data) ++ '.' :: ("xml".data)) := by
        rw [← ht]; rfl
      exact congrArg Except.ok (reconstruct_double_ext fn t hfn hj)
  · obtain ⟨t, ht⟩ := (pyEndsWith_iff fn _).mp h
    rw [reconstructName, parse_ds_fasta fn (Or.inr h)] at heq
    simp only [Except.map] at heq
    have heq2 := Except.ok.inj heq
    rw [← ht] at heq2
    exact fasta_fa_ne _ t heq2
  · obtain ⟨t, ht⟩ := (pyEndsWith_iff fn _).mp h
    rw [reconstructName, parse_ds_fastq fn (Or.inr h)] at heq
    simp only [Except.map] at heq
    have heq2 := Except.ok.inj heq
    rw [← ht] at heq2
    exact fastq_fq_ne _ t heq2

/-- C9 witness: normalization and (non-)reconstruction at concrete names. -/
theorem claim_C9_witness :
    Except.map Prod.snd (parse_ds_filename ("d/x.fa".data)) =
      Except.ok ("fasta".data) ∧
    reconstructName ("d/x.fa".data) ≠ Except.ok ("d/x.fa".data) ∧
    reconstructName ("d/x.fasta".data) = Except.ok ("d/x.fasta".data) :=
  ⟨(claim_C9_amended (("d/x.fa".data)) (by decide)).1 (by decide),
   (claim_C9_amended (("d/x.fa".data)) (by decide)).2.2.2.1 (by decide),
   (claim_C9_amended (("d/x.fasta".data)) (by decide)).2.2.1 (Or.inl (by decide))⟩

/-- C1 counterexample: the claim quantifies over every string `cluster_id`
prefixed with `'c'`; for `cluster_id = "c/"` the serialization embeds the
slash, the re-parse sees four `/`-separated fields and raises, so the
round-trip fails. -/
theorem claim_C1_counterexample :
    ClusterName.init (.str ("c/".data)) (.int 0) (.int 0) (.int 0) =
      Except.ok ⟨("c/".data), 0, 0, 0⟩ ∧
    ClusterName.fromString (ClusterName.toStr ⟨("c/".data), 0, 0, 0⟩) ≠
      Except.ok ⟨("c/".data), 0, 0, 0⟩ ∧
    ClusterName.fromString (ClusterName.toStr ⟨("c/".data), 0, 0, 0⟩) =
      Except.error (ClusterName.fromStringErr
        (ClusterName.toStr ⟨("c/".data), 0, 0, 0⟩)) := by
  decide

/-- C1 (amended): for `cluster_id` an integer, or a string prefixed with
`'c'` that contains no `'/'`, and integer `num_fl`, `num_nfl`, `length`,
construction succeeds and `fromString(str(x))` returns the same fields. -/
theorem claim_C1_amended (cid : PyArg) (fl nfl len : Int)
    (_hfl : 0 ≤ fl) (_hnfl : 0 ≤ nfl) (_hlen : 0 ≤ len)
    (hcid : (∃ n : Int, cid = .int n) ∨
      (∃ s : List Char, cid = .str s ∧ s.head? = some 'c' ∧ '/' ∉ s)) :
    ∃ cn : ClusterName,
      ClusterName.init cid (.int fl) (.int nfl) (.int len) = Except.ok cn ∧
      cn.num_fl = fl ∧ cn.num_nfl = nfl ∧ cn.length = len ∧
      ClusterName.fromString (ClusterName.toStr cn) = Except.ok cn := by
  rcases hcid with ⟨n, rfl⟩ | ⟨s, rfl, hh, hns⟩
  · refine ⟨⟨'c' :: intRepr n, fl, nfl, len⟩, rfl, rfl, rfl, rfl, ?_⟩
    refine ClusterName.fromString_toStr _ fl nfl len rfl ?_
    intro hm
    rcases List.mem_cons.mp hm with h | h
    · exact absurd h (by decide)
    · exact slash_not_mem_intRepr n h
  · refine ⟨⟨s, fl, nfl, len⟩, ?_, rfl, rfl, rfl, ?_⟩
    · simp [ClusterName.init, pyIntOf, hh]
    · exact ClusterName.fromString_toStr s fl nfl len hh hns

/-- C1 witness: the round-trip at a concrete valid input. -/
theorem claim_C1_witness :
    ClusterName.init (.int 72) (.int 2) (.int 14) (.int 1556) =
      Except.ok ⟨("c72".data), 2, 14, 1556⟩ ∧
    ClusterName.fromString (ClusterName.toStr ⟨("c72".data), 2, 14, 1556⟩) =
      Except.ok ⟨("c72".data), 2, 14, 1556⟩ := by
  obtain ⟨cn, h1, h2, h3, h4, h5⟩ :=
    claim_C1_amended (.int 72) 2 14 1556 (by decide) (by decide) (by decide)
      (Or.inl ⟨72, rfl⟩)
  have hcn : cn = ⟨("c72".data), 2, 14, 1556⟩ := by
    have h6 := h1
    rw [show ClusterName.init (.int 72) (.int 2) (.int 14) (.int 1556) =
        Except.ok ⟨("c72".data), 2, 14, 1556⟩ by decide] at h6
    exact (Except.ok.inj h6).symm
  rw [hcn] at h1 h5
  exact ⟨h1, h5⟩

/-- C2 counterexample: a non-numeric cluster index after `'c'` is not
rejected — `fromString("cfoo/f2p14/1556")` returns a `ClusterName` with
`cluster_id_str = "cfoo"` instead of raising. -/
theorem claim_C2_counterexample :
    ClusterName.fromString ("cfoo/f2p14/1556".data) =
      Except.ok ⟨("cfoo".data), 2, 14, 1556⟩ := by
  decide

/-- C2 (amended): a wrong `/`-separated field count, a wrong `p`-split of
the middle field, or a non-numeric `num_fl` / `num_nfl` / `length` field
makes `fromString` raise the uniform `ValueError` whose message names the
offending line; the cluster index itself is not validated. -/
theorem claim_C2_amended (line : List Char) :
    ((pySplitChar '/' line).length ≠ 3 →
      ClusterName.fromString line = Except.error (ClusterName.fromStringErr line)) ∧
    (∀ a f_p len, pySplitChar '/' line = [a, f_p, len] →
      ((pySplitChar 'p' f_p).length ≠ 2 →
        ClusterName.fromString line = Except.error (ClusterName.fromStringErr line)) ∧
      (∀ f p, pySplitChar 'p' f_p = [f, p] →
        (pyInt (f.drop 1) = none ∨ pyInt p = none ∨ pyInt len = none) →
        ClusterName.fromString line = Except.error (ClusterName.fromStringErr line))) ∧
    ClusterName.fromStringErr line = PyError.valueError
      (("Invalid ClusterName ".data) ++ line ++
        ((", should be c<cluster_index>/f<num_fl>p<num_nfl>/<length>".data))) := by
  refine ⟨?_, ?_, rfl⟩
  · intro hlen
    match hs : pySplitChar '/' line with
    | [] => exact absurd hs (pySplitChar_ne_nil '/' line)
    | [a] => simp [ClusterName.fromString, hs]
    | [a, b] => simp [ClusterName.fromString, hs]
    | [a, b, c] => rw [hs] at hlen; simp at hlen
    | a :: b :: c :: d :: rest => simp [ClusterName.fromString, hs]
  · intro a f_p len hs
    constructor
    · intro hlen2
      match hp : pySplitChar 'p' f_p with
      | [] => exact absurd hp (pySplitChar_ne_nil 'p' f_p)
      | [f] => simp [ClusterName.fromString, hs, hp]
      | [f, p] => rw [hp] at hlen2; simp at hlen2
      | f :: p :: q :: rest => simp [ClusterName.fromString, hs, hp]
    · intro f p hp hnone
      rcases hnone with h | h | h
      · rw [List.drop_one] at h
        simp [ClusterName.fromString, hs, hp, h]
      · cases hfi : pyInt f.tail <;>
          simp [ClusterName.fromString, hs, hp, h, hfi]
      · by_cases hh : a.head? = some 'c' <;>
          cases hfi : pyInt f.tail <;> cases hpi : pyInt p <;>
            simp [ClusterName.fromString, hs, hp, hfi, hpi,
              ClusterName.init, pyIntOf, h, hh]

/-- C2 witness: the three failure shapes at concrete lines. -/
theorem claim_C2_witness :
    ClusterName.fromString ("ab".data) =
      Except.error (ClusterName.fromStringErr ("ab".data)) ∧
    ClusterName.fromString ("c1/f2pX/3".data) =
      Except.error (ClusterName.fromStringErr ("c1/f2pX/3".data)) ∧
    ClusterName.fromString ("c1/f2p3/xx".data) =
      Except.error (ClusterName.fromStringErr ("c1/f2p3/xx".data)) :=
  ⟨(claim_C2_amended (("ab".data))).1 (by decide),
   ((claim_C2_amended (("c1/f2pX/3".data))).2.1 (("c1".data)) (("f2pX".data))
      (("3".data)) (by decide)).2 (("f2".data)) (("X".data)) (by decide)
      (Or.inr (Or.inl (by decide))),
   ((claim_C2_amended (("c1/f2p3/xx".data))).2.1 (("c1".data)) (("f2p3".data))
      (("xx".data)) (by decide)).2 (("f2".data)) (("3".data)) (by decide)
      (Or.inr (Or.inr (by decide)))⟩

/-- C5 (code bug): `SampleIsoformName` does not override `__str__`, so
`str(x)` renders only the inherited cluster part without the
`<sample_prefix>|` that both the class docstring and its own `fromString`
expect; `fromString(str(x))` therefore raises instead of round-tripping,
while the docstring's prefixed format parses fine. -/
theorem claim_C5_code_bug :
    SampleIsoformName.init ("i1".data) (.int 72) (.int 2) (.int 14) (.int 1556) =
      Except.ok ⟨("i1".data), ("c72".data), 2, 14, 1556⟩ ∧
    SampleIsoformName.toStr ⟨("i1".data), ("c72".data), 2, 14, 1556⟩ =
      ("c72/f2p14/1556".data) ∧
    SampleIsoformName.fromString
        (SampleIsoformName.toStr ⟨("i1".data), ("c72".data), 2, 14, 1556⟩) =
      Except.error (SampleIsoformName.fromStringErr (("c72/f2p14/1556".data))) ∧
    SampleIsoformName.fromString (("i1|c72/f2p14/1556".data)) =
      Except.ok ⟨("i1".data), ("c72".data), 2, 14, 1556⟩ := by
  decide

/-- C8: every successfully constructed `ClusterName` has a `'c'`-prefixed
`cluster_id_str`; integer and string cluster ids are accepted; any other
type raises `ValueError`. -/
theorem claim_C8 :
    (∀ (cid fl nfl len : PyArg) (cn : ClusterName),
      ClusterName.init cid fl nfl len = Except.ok cn →
      cn.cluster_id_str.head? = some 'c') ∧
    (∀ n fl nfl len : Int, ∃ cn,
      ClusterName.init (.int n) (.int fl) (.int nfl) (.int len) = Except.ok cn) ∧
    (∀ (s : List Char) (fl nfl len : Int), ∃ cn,
      ClusterName.init (.str s) (.int fl) (.int nfl) (.int len) = Except.ok cn) ∧
    (∀ fl nfl len : PyArg,
      ClusterName.init .other fl nfl len =
        Except.error (PyError.valueError (("Invalid cluster id".data)))) := by
  refine ⟨?_, ?_, ?_, ?_⟩
  · intro cid fl nfl len cn h
    cases cid with
    | str s =>
      by_cases hh : s.head? = some 'c' <;>
      · cases hfl2 : pyIntOf fl with
        | error e => simp [ClusterName.init, hh, hfl2] at h
        | ok a =>
          cases hnfl2 : pyIntOf nfl with
          | error e => simp [ClusterName.init, hh, hfl2, hnfl2] at h
          | ok b =>
            cases hlen2 : pyIntOf len with
            | error e => simp [ClusterName.init, hh, hfl2, hnfl2, hlen2] at h
            | ok c =>
              have h2 : ClusterName.init (.str s) fl nfl len =
                  Except.ok ⟨if s.head? = some 'c' then s else 'c' :: s, a, b, c⟩ := by
                simp [ClusterName.init, hh, hfl2, hnfl2, hlen2]
              rw [h2] at h
              rw [← Except.ok.inj h]
              simp [hh]
    | int n =>
      cases hfl2 : pyIntOf fl with
      | error e => simp [ClusterName.init, hfl2] at h
      | ok a =>
        cases hnfl2 : pyIntOf nfl with
        | error e => simp [ClusterName.init, hfl2, hnfl2] at h
        | ok b =>
          cases hlen2 : pyIntOf len with
          | error e => simp [ClusterName.init, hfl2, hnfl2, hlen2] at h
          | ok c =>
            have h2 : ClusterName.init (.int n) fl nfl len =
                Except.ok ⟨'c' :: intRepr n, a, b, c⟩ := by
              simp [ClusterName.init, hfl2, hnfl2, hlen2]
            rw [h2] at h
            rw [← Except.ok.inj h]
            rfl
    | other => simp [ClusterName.init] at h
  · intro n fl nfl len
    exact ⟨⟨'c' :: intRepr n, fl, nfl, len⟩, rfl⟩
  · intro s fl nfl len
    by_cases hh : s.head? = some 'c'
    · exact ⟨⟨s, fl, nfl, len⟩, by simp [ClusterName.init, pyIntOf, hh]⟩
    · exact ⟨⟨'c' :: s, fl, nfl, len⟩, by simp [ClusterName.init, pyIntOf, hh]⟩
  · intro fl nfl len
    rfl

/-- C8 witness: accepted and rejected constructor calls at concrete inputs. -/
theorem claim_C8_witness :
    (⟨("c5".data), 1, 2, 3⟩ : ClusterName).cluster_id_str.head? = some 'c' ∧
    ClusterName.init .other (.int 0) (.int 0) (.int 0) =
      Except.error (PyError.valueError (("Invalid cluster id".data))) :=
  ⟨claim_C8.1 (.str ("5".data)) (.int 1) (.int 2) (.int 3) ⟨("c5".data), 1, 2, 3⟩
      (by decide),
   claim_C8.2.2.2 (.int 0) (.int 0) (.int 0)⟩

/-- C4 (code bug): `args_runner` compares the parsed suffix against
`".contigset.xml"` (with a leading dot) while `parse_ds_filename` returns
`"contigset.xml"` (without one), so the `as_contigset` wrapping branch is
unreachable for every input, and a contig-set target whose representative
file is missing falls into the `IOError` branch instead of being
materialized. -/
theorem claim_C4_code_bug :
    collapsedIsoformsStep (some ("out.contigset.xml".data)) (fun _ => false) =
      CollapseOutAction.raiseError (.ioError
        (("Could not make collapsed isoform file ".data) ++
          ("out.contigset.xml".data))) ∧
    ∀ (target : Option (List Char)) (repExists : List Char → Bool),
      collapsedIsoformsStep target repExists ≠ CollapseOutAction.wrapContigset := by
  constructor
  · decide
  · intro target repExists h
    match target with
    | none => simp [collapsedIsoformsStep] at h
    | some t =>
      cases hp : parse_ds_filename t with
      | error e => simp [collapsedIsoformsStep, hp] at h
      | ok pr =>
        obtain ⟨pfx, sfx⟩ := pr
        have hne : sfx ≠ (".contigset.xml".data) := by
          rcases parse_ds_suffix_cases t pfx sfx hp with h1 | h1 | h1 <;>
            subst h1 <;> decide
        by_cases hre : repExists sfx <;>
          simp [collapsedIsoformsStep, hp, hre, hne] at h

/-- C6: `PBTranscript.run` returns 0 exactly when the dispatched subcommand
completes without raising, and 1 on any caught exception (including the
`PBTranscriptException` raised for an unknown subcommand); it always returns
one of the two codes, never propagating. -/
theorem claim_C6 (cmd : List Char) (cb clb sb : BodyOutcome) :
    (pbTranscriptRun cmd cb clb sb = 0 ∨ pbTranscriptRun cmd cb clb sb = 1) ∧
    (pbTranscriptRun cmd cb clb sb = 0 ↔
      ((cmd = ("classify".data) ∧ cb = .completed) ∨
       (cmd = ("cluster".data) ∧ clb = .completed) ∨
       (cmd = ("subset".data) ∧ sb = .completed))) := by
  by_cases h1 : cmd = ("classify".data)
  · subst h1
    cases cb <;> cases clb <;> cases sb <;> decide
  · by_cases h2 : cmd = ("cluster".data)
    · subst h2
      cases cb <;> cases clb <;> cases sb <;> decide
    · by_cases h3 : cmd = ("subset".data)
      · subst h3
        cases cb <;> cases clb <;> cases sb <;> decide
      · have hrun : pbTranscriptRun cmd cb clb sb = 1 := by
          rw [pbTranscriptRun.eq_def, if_neg h1, if_neg h2, if_neg h3]
        rw [hrun]
        refine ⟨Or.inr rfl, ?_, ?_⟩
        · intro h
          exact absurd h (by decide)
        · intro h
          rcases h with ⟨hc, _⟩ | ⟨hc, _⟩ | ⟨hc, _⟩
          · exact absurd hc h1
          · exact absurd hc h2
          · exact absurd hc h3

/-- C7: the recognized collapse options default to exactly
`min_aln_coverage = 0.99`, `min_aln_identity = 0.95`,
`max_fuzzy_junction = 5`, `min_flnc_coverage = 1`,
`allow_extra_5exon = false`, `skip_5_exon_alt = false`. -/
theorem claim_C7 :
    defaultCollapseArgs.min_aln_coverage = 99 / 100 ∧
    defaultCollapseArgs.min_aln_identity = 95 / 100 ∧
    defaultCollapseArgs.max_fuzzy_junction = 5 ∧
    defaultCollapseArgs.min_flnc_coverage = 1 ∧
    defaultCollapseArgs.allow_extra_5exon = false ∧
    defaultCollapseArgs.skip_5_exon_alt = false := by
  refine ⟨?_, ?_, rfl, rfl, rfl, rfl⟩ <;>
    norm_num [defaultCollapseArgs, MIN_ALN_COVERAGE_DEFAULT, MIN_ALN_IDENTITY_DEFAULT]

/-- C10: the resolved-tool-contract path raises `NotImplementedError` for
every resolved tool contract and can never produce an output value; only the
plain-argument path remains able to return. -/
theorem claim_C10 : ∀ (RTC : Type) (rtc : RTC),
    resolved_tool_contract_runner rtc = Except.error PyError.notImplementedError ∧
    ∀ r : Int, resolved_tool_contract_runner rtc ≠ Except.ok r :=
  fun _ _ => ⟨rfl, fun _ h => by simp [resolved_tool_contract_runner] at h⟩

end PbTranscript
